import Mathlib

/-!
Verification of the DailyFlo task-management backend
(`src/backend/dailyflo/apps/{lists,tasks}`), a Django/DRF application.

The data model and operations below are a shallow embedding of the source:

* `ListRec` embeds the model class `List` of `apps/lists/models.py`
  (the Lean name avoids shadowing the core `List` type);
* `Task` embeds the model class `Task` of `apps/tasks/models.py`;
* a `Store` is the pair of database tables, each a list of rows;
* Django querysets become list `filter`s, `.update(...)` and row saves
  become `map`s over the table, and serializer validation becomes
  `Except String` results produced before the store is touched (mirroring
  DRF's `is_valid()` before `save()`).

Timestamps are naturals (seconds); `UUID` primary keys are naturals;
`metadata` JSON fields and `updated_at` play no role in any verified
property and are omitted from the records.
-/

namespace DailyFlo

abbrev UserId := Nat
abbrev ListId := Nat
abbrev TaskId := Nat
abbrev Time := Nat

/-- `COLOR_CHOICES` shared by `List` and `Task` models. -/
inductive Color where
  | red | blue | green | yellow | purple | teal | orange
deriving DecidableEq, Repr

/-- `ROUTINE_TYPE_CHOICES` of the `Task` model. -/
inductive RoutineType where
  | once | daily | weekly | monthly
deriving DecidableEq, Repr

/-- Row of the `lists` table (source model class `List`,
`apps/lists/models.py`). -/
structure ListRec where
  id : ListId
  user : UserId
  name : String
  description : String
  color : Color
  icon : String
  is_default : Bool
  sort_order : Int
  soft_deleted : Bool
  created_at : Time
deriving DecidableEq, Repr

/-- Row of the `tasks` table (source model class `Task`,
`apps/tasks/models.py`).  `list` is the nullable foreign key to a
`ListRec` (null = inbox). -/
structure Task where
  id : TaskId
  user : UserId
  list : Option ListId
  title : String
  description : String
  due_date : Option Time
  is_completed : Bool
  completed_at : Option Time
  priority_level : Nat
  color : Color
  routine_type : RoutineType
  sort_order : Int
  soft_deleted : Bool
  created_at : Time
deriving DecidableEq, Repr

/-- The relational store: the two tables the verified slice touches. -/
structure Store where
  lists : List ListRec
  tasks : List Task
deriving DecidableEq, Repr

/-- The `update(is_default=False)` bulk write of `List.save`: applied to
a row matched by `filter(user=self.user, is_default=True,
soft_deleted=False).exclude(id=self.id)`. -/
def clearOther (self l : ListRec) : ListRec :=
  if l.user == self.user && l.is_default && !l.soft_deleted
      && l.id != self.id
  then { l with is_default := false } else l

/-- `super().save()`: write the row by primary key, inserting when no
row with that key exists. -/
def upsertList (rows : List ListRec) (self : ListRec) : List ListRec :=
  if rows.any (fun l => l.id == self.id) then
    rows.map (fun l => if l.id == self.id then self else l)
  else rows ++ [self]

/-- `List.save` (`apps/lists/models.py` lines 110-121): when the saved
row has `is_default`, first `List.objects.filter(user=self.user,
is_default=True, soft_deleted=False).exclude(id=self.id)
.update(is_default=False)`, then `super().save()`. -/
def saveList (s : Store) (self : ListRec) : Store :=
  let cleared :=
    if self.is_default then s.lists.map (clearOther self) else s.lists
  { s with lists := upsertList cleared self }

/-- The spec's counting predicate: a non-soft-deleted default list
owned by `u`. -/
def isUserDefault (u : UserId) (l : ListRec) : Bool :=
  l.user == u && l.is_default && !l.soft_deleted

/-- Number of non-soft-deleted default lists owned by `u`
(the quantity the spec bounds by 1). -/
def countDefaults (s : Store) (u : UserId) : Nat :=
  s.lists.countP (isUserDefault u)

/-- `Task.mark_completed` (`apps/tasks/models.py` lines 144-149). -/
def markCompleted (now : Time) (t : Task) : Task :=
  { t with is_completed := true, completed_at := some now }

/-- `Task.mark_incomplete` (`apps/tasks/models.py` lines 151-155). -/
def markIncomplete (t : Task) : Task :=
  { t with is_completed := false, completed_at := none }

/-- `TaskCompleteSerializer.update` (`apps/tasks/serializers.py` lines
184-193): `validated_data.get('is_completed', instance.is_completed)`,
then `mark_completed` on a false-to-true transition, `mark_incomplete`
on true-to-false, otherwise the instance is returned untouched. -/
def taskCompleteUpdate (now : Time) (t : Task) (is_completed? : Option Bool) :
    Task :=
  let c := is_completed?.getD t.is_completed
  if c && !t.is_completed then markCompleted now t
  else if !c && t.is_completed then markIncomplete t
  else t

/-- `Task.is_overdue` (`apps/tasks/models.py` lines 169-174):
false when there is no due date or the task is completed, else
`timezone.now() > self.due_date`. -/
def taskIsOverdue (now : Time) (t : Task) : Bool :=
  if t.due_date.isNone || t.is_completed then false
  else match t.due_date with
    | some d => decide (d < now)
    | none => false

/-- `validate_list` of `TaskCreateSerializer` / `TaskUpdateSerializer`
(`apps/tasks/serializers.py` lines 94-114 and 160-164): a null list
passes; a supplied list must first resolve (DRF primary-key relation
lookup) and must then satisfy `value.user == request.user`, else
`ValidationError`.  The caller is the authenticated user
(`permission_classes = [IsAuthenticated]`); the anonymous test-user
shim of the create serializer is unreachable behind that permission. -/
def validateList (s : Store) (caller : UserId) (lid? : Option ListId) :
    Except String (Option ListRec) :=
  match lid? with
  | none => .ok none
  | some lid =>
    match s.lists.find? (fun l => l.id == lid) with
    | none => .error "object does not exist"
    | some l =>
      if l.user ≠ caller then
        .error "You can only assign tasks to your own lists."
      else .ok (some l)

/-- `validate_due_date` of `TaskCreateSerializer` / `TaskUpdateSerializer`
(`apps/tasks/serializers.py` lines 116-122 and 166-172): a supplied due
date strictly before `timezone.now()` is a `ValidationError`. -/
def validateDueDate (now : Time) (d? : Option Time) :
    Except String (Option Time) :=
  match d? with
  | none => .ok none
  | some d =>
    if d < now then .error "Due date cannot be in the past."
    else .ok (some d)

/-- Writable fields of `TaskCreateSerializer` (`apps/tasks/serializers.py`
lines 86-92) that exist on the `Task` model, with the model's defaults.
The fresh primary key is a parameter (the source draws a UUID). -/
structure TaskCreateParams where
  id : TaskId
  title : String
  description : String := ""
  due_date : Option Time := none
  priority_level : Nat := 3
  color : Color := .blue
  routine_type : RoutineType := .once
  list : Option ListId := none
  sort_order : Int := 0
deriving Repr

/-- `POST /tasks` (`TaskCreateSerializer` + `perform_create`): run the
field validators, then insert a row owned by the caller with
`is_completed`/`completed_at`/`soft_deleted` at their model defaults. -/
def createTask (s : Store) (caller : UserId) (now : Time)
    (p : TaskCreateParams) : Except String (Store × Task) :=
  match validateList s caller p.list with
  | .error e => .error e
  | .ok _ =>
    match validateDueDate now p.due_date with
    | .error e => .error e
    | .ok _ =>
      let t : Task :=
        { id := p.id, user := caller, list := p.list, title := p.title
          description := p.description, due_date := p.due_date
          is_completed := false, completed_at := none
          priority_level := p.priority_level, color := p.color
          routine_type := p.routine_type, sort_order := p.sort_order
          soft_deleted := false, created_at := now }
      .ok ({ s with tasks := s.tasks ++ [t] }, t)

/-- The HTTP-level outcome of `POST /tasks`: on a validation error the
store is unchanged and no task is returned. -/
def createTaskApi (s : Store) (caller : UserId) (now : Time)
    (p : TaskCreateParams) : Store × Option Task :=
  match createTask s caller now p with
  | .ok (s', t) => (s', some t)
  | .error _ => (s, none)

/-- Partial-update payload of `TaskUpdateSerializer`
(`apps/tasks/serializers.py` lines 153-158): exactly the serializer's
writable model fields; an outer `none` means the field was absent from
the request.  `due_date` and `list` are nullable on the model, so their
supplied value is itself an `Option`. -/
structure TaskUpdatePatch where
  title : Option String := none
  description : Option String := none
  due_date : Option (Option Time) := none
  priority_level : Option Nat := none
  color : Option Color := none
  routine_type : Option RoutineType := none
  list : Option (Option ListId) := none
  sort_order : Option Int := none
deriving Repr

/-- Application of a validated `TaskUpdateSerializer` payload to an
instance: each supplied field overwrites, every other attribute of the
row is untouched. -/
def applyUpdate (t : Task) (p : TaskUpdatePatch) : Task :=
  { t with
    title := p.title.getD t.title
    description := p.description.getD t.description
    due_date := p.due_date.getD t.due_date
    priority_level := p.priority_level.getD t.priority_level
    color := p.color.getD t.color
    routine_type := p.routine_type.getD t.routine_type
    list := p.list.getD t.list
    sort_order := p.sort_order.getD t.sort_order }

/-- `TaskViewSet.get_queryset` (`apps/tasks/views.py` lines 32-39):
`Task.objects.filter(user=request.user, soft_deleted=False)`. -/
def tasksQueryset (s : Store) (u : UserId) : List Task :=
  s.tasks.filter (fun t => t.user == u && !t.soft_deleted)

/-- `ListViewSet.get_queryset` (`apps/lists/views.py` lines 18-23):
`List.objects.filter(user=request.user, soft_deleted=False)`. -/
def listsQueryset (s : Store) (u : UserId) : List ListRec :=
  s.lists.filter (fun l => l.user == u && !l.soft_deleted)

/-- `validate_list` applied to a partial-update payload: the validator
only runs when the field is present in the request. -/
def validateListField (s : Store) (caller : UserId)
    (field : Option (Option ListId)) : Except String (Option ListRec) :=
  match field with
  | some lid? => validateList s caller lid?
  | none => .ok none

/-- `validate_due_date` applied to a partial-update payload. -/
def validateDueDateField (now : Time) (field : Option (Option Time)) :
    Except String (Option Time) :=
  match field with
  | some d? => validateDueDate now d?
  | none => .ok none

/-- `PATCH/PUT /tasks/{id}`: resolve the object inside the user-scoped
queryset (404 otherwise), validate the supplied `list` and `due_date`,
then save the patched instance in place. -/
def updateTask (s : Store) (caller : UserId) (now : Time) (tid : TaskId)
    (p : TaskUpdatePatch) : Except String Store :=
  match (tasksQueryset s caller).find? (fun t => t.id == tid) with
  | none => .error "not found"
  | some t =>
    match validateListField s caller p.list with
    | .error e => .error e
    | .ok _ =>
      match validateDueDateField now p.due_date with
      | .error e => .error e
      | .ok _ =>
        .ok { s with tasks := s.tasks.map (fun a =>
                if a.id == t.id then applyUpdate t p else a) }

/-- The HTTP-level outcome of `PATCH /tasks/{id}`: a validation error or
404 leaves the store unchanged. -/
def updateTaskApi (s : Store) (caller : UserId) (now : Time) (tid : TaskId)
    (p : TaskUpdatePatch) : Store :=
  match updateTask s caller now tid p with
  | .ok s' => s'
  | .error _ => s

/-- `PATCH /tasks/{id}/complete` (`TaskViewSet.complete`,
`apps/tasks/views.py` lines 63-71): resolve inside the scoped queryset
and apply `TaskCompleteSerializer.update`. -/
def completeTask (s : Store) (caller : UserId) (now : Time) (tid : TaskId)
    (is_completed? : Option Bool) : Store :=
  match (tasksQueryset s caller).find? (fun t => t.id == tid) with
  | none => s
  | some t =>
    { s with tasks := s.tasks.map (fun a =>
        if a.id == t.id then taskCompleteUpdate now t is_completed? else a) }

/-- `TaskViewSet.perform_destroy` (`apps/tasks/views.py` lines 56-61):
soft delete, never a row removal. -/
def destroyTask (s : Store) (caller : UserId) (tid : TaskId) : Store :=
  match (tasksQueryset s caller).find? (fun t => t.id == tid) with
  | none => s
  | some t =>
    { s with tasks := s.tasks.map (fun a =>
        if a.id == t.id then { a with soft_deleted := true } else a) }

/-- Boolean substring test over character lists (the `icontains` core of
DRF's `SearchFilter`; case folding is irrelevant to the scoping claims). -/
def containsChars (needle : List Char) : List Char → Bool
  | [] => needle.isEmpty
  | c :: rest => needle.isPrefixOf (c :: rest) || containsChars needle rest

/-- `TaskViewSet` query-string filters (`apps/tasks/views.py` lines
26-28): `filterset_fields = ['is_completed', 'color', 'priority_level',
'routine_type', 'list']` plus `search_fields = ['title', 'description']`. -/
structure TaskFilters where
  is_completed : Option Bool := none
  color : Option Color := none
  priority_level : Option Nat := none
  routine_type : Option RoutineType := none
  list : Option ListId := none
  search : Option String := none
deriving Repr

def matchesFilters (f : TaskFilters) (t : Task) : Bool :=
  (match f.is_completed with | some b => t.is_completed == b | none => true)
  && (match f.color with | some c => t.color == c | none => true)
  && (match f.priority_level with | some p => t.priority_level == p | none => true)
  && (match f.routine_type with | some r => t.routine_type == r | none => true)
  && (match f.list with | some lid => t.list == some lid | none => true)
  && (match f.search with
      | some q => containsChars q.data t.title.data
          || containsChars q.data t.description.data
      | none => true)

/-- `GET /tasks` with query-string filters: the user-scoped queryset
further filtered by the backends (ordering changes only the order, not
membership, and is treated separately). -/
def listTasks (s : Store) (u : UserId) (f : TaskFilters) : List Task :=
  (tasksQueryset s u).filter (matchesFilters f)

/-- Calendar date of a timestamp (`due_date__date`), seconds per day. -/
def dateOf (t : Time) : Nat := t / 86400

/-- `TaskViewSet.today` (`apps/tasks/views.py` lines 73-82):
`queryset.filter(Q(due_date__date=today) | Q(due_date__isnull=True))
.exclude(is_completed=True)`. -/
def todayTasks (s : Store) (u : UserId) (todayDate : Nat) : List Task :=
  (tasksQueryset s u).filter (fun t =>
    (match t.due_date with
     | some d => dateOf d == todayDate
     | none => true) && !t.is_completed)

/-- `TaskViewSet.overdue` (`apps/tasks/views.py` lines 84-94):
`queryset.filter(due_date__lt=now, is_completed=False)` (a null
`due_date` never satisfies `due_date__lt`). -/
def overdueTasks (s : Store) (u : UserId) (now : Time) : List Task :=
  (tasksQueryset s u).filter (fun t =>
    (match t.due_date with
     | some d => decide (d < now)
     | none => false) && !t.is_completed)

/-- `TaskViewSet.completed` (`apps/tasks/views.py` lines 96-102). -/
def completedTasks (s : Store) (u : UserId) : List Task :=
  (tasksQueryset s u).filter (fun t => t.is_completed)

/-- `GET /tasks/{id}`: object resolution inside the scoped queryset. -/
def retrieveTask (s : Store) (u : UserId) (tid : TaskId) : Option Task :=
  (tasksQueryset s u).find? (fun t => t.id == tid)

/-- `GET /lists/{id}`: object resolution inside the scoped queryset. -/
def retrieveList (s : Store) (u : UserId) (lid : ListId) : Option ListRec :=
  (listsQueryset s u).find? (fun l => l.id == lid)

/-- `ListViewSet.tasks` (`apps/tasks/views.py` lines 132-148):
`Task.objects.filter(list=list_obj, user=request.user,
soft_deleted=False)`, optionally narrowed by `?completed=`. -/
def listTasksOfList (s : Store) (u : UserId) (lid : ListId)
    (completed? : Option Bool) : List Task :=
  let base := s.tasks.filter (fun t =>
    t.list == some lid && t.user == u && !t.soft_deleted)
  match completed? with
  | some b => base.filter (fun t => t.is_completed == b)
  | none => base

/-- `ListViewSet.ordering = ['sort_order', 'name']`
(`apps/lists/views.py` lines 14-16): `a` sorts no later than `b`. -/
def listOrderLe (a b : ListRec) : Bool :=
  decide (a.sort_order < b.sort_order)
  || (a.sort_order == b.sort_order && decide (a.name ≤ b.name))

/-- `TaskViewSet.ordering = ['-created_at']` (`apps/tasks/views.py`
line 30): descending by creation time. -/
def taskApiOrderLe (a b : Task) : Bool :=
  decide (b.created_at ≤ a.created_at)

/-- `Task.Meta.ordering = ['sort_order', 'created_at']`
(`apps/tasks/models.py` line 139): the at-rest model ordering. -/
def taskModelOrderLe (a b : Task) : Bool :=
  decide (a.sort_order < b.sort_order)
  || (a.sort_order == b.sort_order && decide (a.created_at ≤ b.created_at))

set_option linter.unusedVariables false in
/-- Modelled from the spec: the list-delete endpoint is absent from
`src/` — only its input declaration `ListDeleteSerializer`
(`apps/lists/serializers.py` lines 77-87, `confirm_delete` required,
`move_tasks_to_inbox` default true) exists, and no view wires it up.
Per the spec's `delete(list_id, move_tasks_to_inbox)`: requires explicit
confirmation, soft-deletes the list (a flag, never a row removal), and
clears the `list` reference of every task that referenced it regardless
of `move_tasks_to_inbox`; tasks are never deleted. -/
def deleteList (s : Store) (caller : UserId) (lid : ListId)
    (confirm_delete : Bool) (move_tasks_to_inbox : Bool) :
    Except String Store :=
  if !confirm_delete then .error "You must confirm the deletion."
  else
    match (listsQueryset s caller).find? (fun l => l.id == lid) with
    | none => .error "not found"
    | some _ =>
      .ok { lists := s.lists.map (fun l =>
              if l.id == lid then { l with soft_deleted := true } else l)
            tasks := s.tasks.map (fun t =>
              if t.list == some lid then { t with list := none } else t) }

/-- A task-store operation issued through the API (the operations the
completion-invariant claim quantifies over). -/
inductive TaskOp where
  | create (caller : UserId) (now : Time) (p : TaskCreateParams)
  | update (caller : UserId) (now : Time) (tid : TaskId) (p : TaskUpdatePatch)
  | complete (caller : UserId) (now : Time) (tid : TaskId) (c? : Option Bool)
  | destroy (caller : UserId) (tid : TaskId)

/-- One API call against the store; a rejected call leaves it unchanged. -/
def applyOp (s : Store) : TaskOp → Store
  | .create caller now p => (createTaskApi s caller now p).1
  | .update caller now tid p => updateTaskApi s caller now tid p
  | .complete caller now tid c? => completeTask s caller now tid c?
  | .destroy caller tid => destroyTask s caller tid

def applyOps (s : Store) (ops : List TaskOp) : Store :=
  ops.foldl applyOp s

/-- The paired-timestamp invariant: `is_completed` iff `completed_at`
is non-null. -/
def completedInv (t : Task) : Bool :=
  t.is_completed == t.completed_at.isSome

/-! Sample entities used by the witness theorems. -/

def sampleList : ListRec :=
  { id := 10, user := 1, name := "Work", description := "", color := .blue
    icon := "", is_default := false, sort_order := 0, soft_deleted := false
    created_at := 5 }

def sampleDefaultList : ListRec :=
  { sampleList with id := 11, name := "Inbox", is_default := true }

def otherUserList : ListRec :=
  { sampleList with id := 12, name := "Theirs", user := 2 }

def sampleTask : Task :=
  { id := 20, user := 1, list := some 10, title := "Ship report"
    description := "", due_date := some 100, is_completed := false
    completed_at := none, priority_level := 4, color := .blue
    routine_type := .once, sort_order := 0, soft_deleted := false
    created_at := 50 }

def sampleStore : Store :=
  { lists := [sampleList, sampleDefaultList, otherUserList]
    tasks := [sampleTask] }

/-- C3: `set_completed` is a no-op when the requested flag already equals
`is_completed`; a false-to-true transition sets `completed_at` to the
current time; a true-to-false transition clears it to null. -/
theorem set_completed_transitions (now : Time) (t : Task) (c : Bool) :
    (c = t.is_completed → taskCompleteUpdate now t (some c) = t)
    ∧ (c = true → t.is_completed = false →
        taskCompleteUpdate now t (some c)
          = { t with is_completed := true, completed_at := some now })
    ∧ (c = false → t.is_completed = true →
        taskCompleteUpdate now t (some c)
          = { t with is_completed := false, completed_at := none }) := by
  cases c <;> cases ht : t.is_completed <;>
    simp [taskCompleteUpdate, markCompleted, markIncomplete, ht]

/-- C3 witness: completing the (incomplete) sample task at time 60
stamps `completed_at = 60`. -/
theorem set_completed_transitions_check :
    taskCompleteUpdate 60 sampleTask (some true)
      = { sampleTask with is_completed := true, completed_at := some 60 } :=
  (set_completed_transitions 60 sampleTask true).2.1 rfl (by decide)

/-- C6: a supplied due date strictly before the current time fails
validation (and `POST /tasks` then leaves the store unchanged and
creates nothing); an absent due date, or one not before now, passes the
due-date validator. -/
theorem due_date_validation (s : Store) (caller : UserId) (now d : Time)
    (p : TaskCreateParams) (tid : TaskId) (q : TaskUpdatePatch) :
    validateDueDate now none = .ok none
    ∧ (d < now → validateDueDate now (some d)
        = .error "Due date cannot be in the past.")
    ∧ (¬ d < now → validateDueDate now (some d) = .ok (some d))
    ∧ (p.due_date = some d → d < now →
        createTaskApi s caller now p = (s, none))
    ∧ (q.due_date = some (some d) → d < now →
        updateTaskApi s caller now tid q = s) := by
  refine ⟨rfl, ?_, ?_, ?_, ?_⟩
  · intro h
    simp [validateDueDate, h]
  · intro h
    simp [validateDueDate, h]
  · intro hp h
    unfold createTaskApi createTask
    cases hv : validateList s caller p.list with
    | error e => simp [hv]
    | ok _ => simp [hv, hp, validateDueDate, h]
  · intro hq h
    unfold updateTaskApi updateTask
    cases hft : (tasksQueryset s caller).find? (fun t => t.id == tid) with
    | none => simp [hft]
    | some t0 =>
      cases hv : validateListField s caller q.list with
      | error e => simp [hft, hv]
      | ok _ =>
        simp [hft, hv, validateDueDateField, hq, validateDueDate, h]

/-- C6 witness: at `now = 100`, creating with due date 99 is rejected
with the store untouched, while due dates `none` and 100 pass. -/
theorem due_date_validation_check :
    createTaskApi sampleStore 1 100
        { id := 21, title := "late", due_date := some 99 }
      = (sampleStore, none)
    ∧ validateDueDate 100 none = .ok none
    ∧ validateDueDate 100 (some 100) = .ok (some 100) :=
  ⟨(due_date_validation sampleStore 1 100 99
      { id := 21, title := "late", due_date := some 99 } 0 {}).2.2.2.1 rfl
      (by decide),
   (due_date_validation sampleStore 1 100 99
      { id := 21, title := "late", due_date := some 99 } 0 {}).1,
   (due_date_validation sampleStore 1 100 100
      { id := 21, title := "late", due_date := some 99 } 0 {}).2.2.1
      (by decide)⟩

/-- C7: `is_overdue` holds exactly when a due date exists, lies strictly
before now, and the task is incomplete — never for a completed task —
and the `overdue` action returns exactly the caller's non-deleted tasks
satisfying it. -/
theorem overdue_characterisation (s : Store) (u : UserId) (now : Time)
    (t : Task) :
    (taskIsOverdue now t = true ↔
      (∃ d, t.due_date = some d ∧ d < now) ∧ t.is_completed = false)
    ∧ (t.is_completed = true → taskIsOverdue now t = false)
    ∧ (t ∈ overdueTasks s u now ↔
        t ∈ s.tasks ∧ t.user = u ∧ t.soft_deleted = false
          ∧ taskIsOverdue now t = true) := by
  have hchar : taskIsOverdue now t = true ↔
      (∃ d, t.due_date = some d ∧ d < now) ∧ t.is_completed = false := by
    cases hd : t.due_date with
    | none => simp [taskIsOverdue, hd]
    | some d =>
      cases hc : t.is_completed <;> simp [taskIsOverdue, hd, hc]
  refine ⟨hchar, ?_, ?_⟩
  · intro hc
    cases hd : t.due_date <;> simp [taskIsOverdue, hd, hc]
  · rw [hchar]
    unfold overdueTasks tasksQueryset
    rw [List.filter_filter]
    cases hd : t.due_date with
    | none => simp [List.mem_filter, hd]
    | some d =>
      cases hc : t.is_completed with
      | true => simp [List.mem_filter, hd, hc]
      | false =>
        simp [List.mem_filter, hd, hc, and_assoc]
        tauto

/-- C7 witness: at `now = 101` the sample task (due 100, incomplete) is
overdue and is returned by the `overdue` action, while its completed
variant is not overdue. -/
theorem overdue_characterisation_check :
    taskIsOverdue 101 sampleTask = true
    ∧ sampleTask ∈ overdueTasks sampleStore 1 101
    ∧ taskIsOverdue 101 { sampleTask with is_completed := true } = false :=
  ⟨(overdue_characterisation sampleStore 1 101 sampleTask).1.mpr
      ⟨⟨100, rfl, by decide⟩, rfl⟩,
   (overdue_characterisation sampleStore 1 101 sampleTask).2.2.mpr
      ⟨by decide, rfl, rfl, by decide⟩,
   (overdue_characterisation sampleStore 1 101
      { sampleTask with is_completed := true }).2.1 rfl⟩

/-- C4: a supplied list reference owned by someone other than the caller
fails validation and the create/update endpoints leave the store
untouched; a null list, or one owned by the caller, passes. -/
theorem list_ownership_enforced (s : Store) (caller : UserId) (now : Time)
    (p : TaskCreateParams) (tid : TaskId) (q : TaskUpdatePatch)
    (lid : ListId) (l : ListRec) :
    validateList s caller none = .ok none
    ∧ (s.lists.find? (fun a => a.id == lid) = some l → l.user = caller →
        validateList s caller (some lid) = .ok (some l))
    ∧ (p.list = some lid → s.lists.find? (fun a => a.id == lid) = some l →
        l.user ≠ caller → createTaskApi s caller now p = (s, none))
    ∧ (q.list = some (some lid) →
        s.lists.find? (fun a => a.id == lid) = some l →
        l.user ≠ caller → updateTaskApi s caller now tid q = s) := by
  refine ⟨rfl, ?_, ?_, ?_⟩
  · intro hf hu
    simp [validateList, hf, hu]
  · intro hp hf hne
    unfold createTaskApi createTask
    simp [hp, validateList, hf, hne]
  · intro hq hf hne
    unfold updateTaskApi updateTask
    cases hft : (tasksQueryset s caller).find? (fun t => t.id == tid) with
    | none => simp [hft]
    | some t0 => simp [hft, validateListField, hq, validateList, hf, hne]

/-- C4 witness: user 1 creating a task on user 2's list (id 12) is
rejected with the store unchanged; user 1's own list passes. -/
theorem list_ownership_enforced_check :
    createTaskApi sampleStore 1 60
        { id := 22, title := "sneak", list := some 12 }
      = (sampleStore, none)
    ∧ validateList sampleStore 1 (some 10) = .ok (some sampleList) :=
  ⟨(list_ownership_enforced sampleStore 1 60
      { id := 22, title := "sneak", list := some 12 } 0 {} 12
      otherUserList).2.2.1 rfl (by decide) (by decide),
   (list_ownership_enforced sampleStore 1 60
      { id := 22, title := "sneak", list := some 12 } 0 {} 10
      sampleList).2.1 (by decide) rfl⟩

/-- C5: every read path — the scoped querysets, the filtered task list,
`today`, `overdue`, `completed`, per-list tasks, and object retrieval —
returns only entities owned by the caller with `soft_deleted = false`,
whatever ids or filters are supplied. -/
theorem read_paths_scoped (s : Store) (u : UserId) (now todayDate : Nat)
    (f : TaskFilters) (lid : ListId) (tid : TaskId) (c? : Option Bool)
    (t : Task) (l : ListRec) :
    (t ∈ tasksQueryset s u → t.user = u ∧ t.soft_deleted = false)
    ∧ (t ∈ listTasks s u f → t.user = u ∧ t.soft_deleted = false)
    ∧ (t ∈ todayTasks s u todayDate → t.user = u ∧ t.soft_deleted = false)
    ∧ (t ∈ overdueTasks s u now → t.user = u ∧ t.soft_deleted = false)
    ∧ (t ∈ completedTasks s u → t.user = u ∧ t.soft_deleted = false)
    ∧ (t ∈ listTasksOfList s u lid c? → t.user = u ∧ t.soft_deleted = false)
    ∧ (retrieveTask s u tid = some t → t.user = u ∧ t.soft_deleted = false)
    ∧ (l ∈ listsQueryset s u → l.user = u ∧ l.soft_deleted = false)
    ∧ (retrieveList s u lid = some l → l.user = u ∧ l.soft_deleted = false)
    := by
  have hQ : ∀ a : Task, a ∈ tasksQueryset s u →
      a.user = u ∧ a.soft_deleted = false := by
    intro a ha
    have h2 := (List.mem_filter.mp ha).2
    simp only [Bool.and_eq_true, beq_iff_eq, Bool.not_eq_true'] at h2
    exact h2
  have hL : ∀ a : ListRec, a ∈ listsQueryset s u →
      a.user = u ∧ a.soft_deleted = false := by
    intro a ha
    have h2 := (List.mem_filter.mp ha).2
    simp only [Bool.and_eq_true, beq_iff_eq, Bool.not_eq_true'] at h2
    exact h2
  refine ⟨hQ t, ?_, ?_, ?_, ?_, ?_, ?_, hL l, ?_⟩
  · intro h
    exact hQ t (List.mem_filter.mp h).1
  · intro h
    exact hQ t (List.mem_filter.mp h).1
  · intro h
    exact hQ t (List.mem_filter.mp h).1
  · intro h
    exact hQ t (List.mem_filter.mp h).1
  · intro h
    have hb : t ∈ s.tasks.filter (fun a =>
        a.list == some lid && a.user == u && !a.soft_deleted) := by
      unfold listTasksOfList at h
      cases c? with
      | some b => exact (List.mem_filter.mp h).1
      | none => exact h
    have h2 := (List.mem_filter.mp hb).2
    simp only [Bool.and_eq_true, beq_iff_eq, Bool.not_eq_true'] at h2
    exact ⟨h2.1.2, h2.2⟩
  · intro h
    exact hQ t (List.mem_of_find?_eq_some h)
  · intro h
    exact hL l (List.mem_of_find?_eq_some h)

/-- C5 witness: the sample task retrieved by id belongs to user 1 and is
not soft-deleted; user 2's queryset does not contain it. -/
theorem read_paths_scoped_check :
    sampleTask.user = 1 ∧ sampleTask.soft_deleted = false :=
  (read_paths_scoped sampleStore 1 0 0 {} 10 20 none sampleTask
    sampleList).2.2.2.2.2.2.1 (by decide)

/-- Rows produced by `PATCH /tasks/{id}` inherit id, completion state and
deletion state from an original row (shared between the frame and
invariant developments). -/
theorem updateTaskApi_mem (s : Store) (caller : UserId) (now : Time)
    (tid : TaskId) (p : TaskUpdatePatch) :
    ∀ a ∈ (updateTaskApi s caller now tid p).tasks,
      ∃ b ∈ s.tasks, b.id = a.id ∧ a.is_completed = b.is_completed
        ∧ a.completed_at = b.completed_at
        ∧ a.soft_deleted = b.soft_deleted := by
  intro a ha
  unfold updateTaskApi at ha
  cases hup : updateTask s caller now tid p with
  | error e =>
    rw [hup] at ha
    exact ⟨a, ha, rfl, rfl, rfl, rfl⟩
  | ok s' =>
    rw [hup] at ha
    unfold updateTask at hup
    cases hf : (tasksQueryset s caller).find? (fun t => t.id == tid) with
    | none => rw [hf] at hup; exact absurd hup (by simp)
    | some t0 =>
      rw [hf] at hup
      have ht0 : t0 ∈ s.tasks :=
        (List.mem_filter.mp (List.mem_of_find?_eq_some hf)).1
      cases hvl : validateListField s caller p.list with
      | error e => rw [hvl] at hup; exact absurd hup (by simp)
      | ok _ =>
        rw [hvl] at hup
        cases hvd : validateDueDateField now p.due_date with
        | error e => rw [hvd] at hup; exact absurd hup (by simp)
        | ok _ =>
          rw [hvd] at hup
          simp only [Except.ok.injEq] at hup
          subst hup
          simp only [List.mem_map] at ha
          obtain ⟨b, hb, hba⟩ := ha
          by_cases hid : (b.id == t0.id) = true
          · rw [if_pos hid] at hba
            subst hba
            exact ⟨t0, ht0, rfl, rfl, rfl, rfl⟩
          · rw [if_neg hid] at hba
            subst hba
            exact ⟨b, hb, rfl, rfl, rfl, rfl⟩

/-- A single API call preserves the paired-timestamp invariant. -/
theorem completedInv_applyOp (s : Store) (op : TaskOp)
    (h : ∀ t ∈ s.tasks, completedInv t = true) :
    ∀ t ∈ (applyOp s op).tasks, completedInv t = true := by
  cases op with
  | create caller now p =>
    intro t ht
    simp only [applyOp, createTaskApi] at ht
    cases hc : createTask s caller now p with
    | error e => rw [hc] at ht; exact h t ht
    | ok r =>
      rw [hc] at ht
      unfold createTask at hc
      cases hv1 : validateList s caller p.list with
      | error e => rw [hv1] at hc; exact absurd hc (by simp)
      | ok _ =>
        rw [hv1] at hc
        cases hv2 : validateDueDate now p.due_date with
        | error e => rw [hv2] at hc; exact absurd hc (by simp)
        | ok _ =>
          rw [hv2] at hc
          simp only [Except.ok.injEq] at hc
          subst hc
          simp only [List.mem_append, List.mem_singleton] at ht
          cases ht with
          | inl hmem => exact h t hmem
          | inr hnew => subst hnew; rfl
  | update caller now tid p =>
    intro t ht
    simp only [applyOp] at ht
    obtain ⟨b, hb, _, hic, hca, _⟩ :=
      updateTaskApi_mem s caller now tid p t ht
    have hinv := h b hb
    unfold completedInv at hinv ⊢
    rw [hic, hca]
    exact hinv
  | complete caller now tid c? =>
    intro t ht
    simp only [applyOp] at ht
    unfold completeTask at ht
    cases hf : (tasksQueryset s caller).find? (fun t => t.id == tid) with
    | none => rw [hf] at ht; exact h t ht
    | some t0 =>
      rw [hf] at ht
      have ht0 : t0 ∈ s.tasks :=
        (List.mem_filter.mp (List.mem_of_find?_eq_some hf)).1
      simp only [List.mem_map] at ht
      obtain ⟨b, hb, hba⟩ := ht
      by_cases hid : (b.id == t0.id) = true
      · rw [if_pos hid] at hba
        subst hba
        unfold taskCompleteUpdate
        dsimp only
        split
        · rfl
        · split
          · rfl
          · exact h t0 ht0
      · rw [if_neg hid] at hba
        subst hba
        exact h b hb
  | destroy caller tid =>
    intro t ht
    simp only [applyOp] at ht
    unfold destroyTask at ht
    cases hf : (tasksQueryset s caller).find? (fun t => t.id == tid) with
    | none => rw [hf] at ht; exact h t ht
    | some t0 =>
      rw [hf] at ht
      simp only [List.mem_map] at ht
      obtain ⟨b, hb, hba⟩ := ht
      by_cases hid : (b.id == t0.id) = true
      · rw [if_pos hid] at hba
        subst hba
        exact h b hb
      · rw [if_neg hid] at hba
        subst hba
        exact h b hb

/-- C2: after any sequence of task operations (create, update, complete,
destroy), every stored task satisfies `is_completed ↔ completed_at ≠
null`. -/
theorem completion_timestamp_invariant (s : Store) (ops : List TaskOp)
    (h : ∀ t ∈ s.tasks, completedInv t = true) :
    ∀ t ∈ (applyOps s ops).tasks, completedInv t = true := by
  induction ops generalizing s with
  | nil => exact h
  | cons op rest ih =>
    exact ih (applyOp s op) (completedInv_applyOp s op h)

/-- C2 witness: after completing the sample task at time 60, the stored
row pairs `is_completed = true` with `completed_at = 60`. -/
theorem completion_timestamp_invariant_check :
    completedInv
      { sampleTask with is_completed := true, completed_at := some 60 }
      = true :=
  completion_timestamp_invariant sampleStore
    [.complete 1 60 20 (some true)] (by decide)
    { sampleTask with is_completed := true, completed_at := some 60 }
    (by decide)

/-- C10: the generic task update (`TaskUpdateSerializer`) cannot touch
`is_completed`, `completed_at` or `soft_deleted`: the serializer's
writable fields exclude them, so the patched instance keeps all three,
and every row of the store after `PATCH /tasks/{id}` carries the
completion/deletion state of an original row with the same id. -/
theorem task_update_frame (s : Store) (caller : UserId) (now : Time)
    (tid : TaskId) (p : TaskUpdatePatch) (t : Task) :
    (applyUpdate t p).is_completed = t.is_completed
    ∧ (applyUpdate t p).completed_at = t.completed_at
    ∧ (applyUpdate t p).soft_deleted = t.soft_deleted
    ∧ ∀ a ∈ (updateTaskApi s caller now tid p).tasks,
        ∃ b ∈ s.tasks, b.id = a.id ∧ a.is_completed = b.is_completed
          ∧ a.completed_at = b.completed_at
          ∧ a.soft_deleted = b.soft_deleted :=
  ⟨rfl, rfl, rfl, updateTaskApi_mem s caller now tid p⟩

/-- C10 witness: patching the sample task's title leaves its completion
and deletion state intact on the stored row. -/
theorem task_update_frame_check :
    ∃ b ∈ sampleStore.tasks,
      b.id = ({ sampleTask with title := "New" } : Task).id
      ∧ ({ sampleTask with title := "New" } : Task).is_completed
          = b.is_completed
      ∧ ({ sampleTask with title := "New" } : Task).completed_at
          = b.completed_at
      ∧ ({ sampleTask with title := "New" } : Task).soft_deleted
          = b.soft_deleted :=
  (task_update_frame sampleStore 1 100 20 { title := some "New" }
      sampleTask).2.2.2
    { sampleTask with title := "New" } (by decide)

/-- `clearOther` preserves key, owner and deletion flag, and a row still
default after it was already the saved row's own id (when the owner
matches and the row is live) — the core of the single-default argument. -/
theorem clearOther_cases (x l : ListRec) :
    (clearOther x l).id = l.id
    ∧ (clearOther x l).user = l.user
    ∧ (clearOther x l).soft_deleted = l.soft_deleted
    ∧ ((clearOther x l).is_default = true →
        clearOther x l = l ∧ l.is_default = true
        ∧ (l.user = x.user → l.soft_deleted = false → l.id = x.id)) := by
  unfold clearOther
  by_cases hc : (l.user == x.user && l.is_default && !l.soft_deleted
      && (l.id != x.id)) = true
  · rw [if_pos hc]
    refine ⟨rfl, rfl, rfl, ?_⟩
    intro h
    exact absurd h (by simp)
  · rw [if_neg hc]
    refine ⟨rfl, rfl, rfl, ?_⟩
    intro hd
    refine ⟨rfl, hd, ?_⟩
    intro huser hsd
    simp only [Bool.and_eq_true, beq_iff_eq, bne_iff_ne,
      Bool.not_eq_true'] at hc
    by_contra hne
    exact hc ⟨⟨⟨huser, hd⟩, hsd⟩, hne⟩

/-- Upserting a row that does not count towards a user's defaults never
raises that user's default count. -/
theorem countP_upsert_nondefault (rows : List ListRec) (x : ListRec)
    (u : UserId) (hPx : ¬ isUserDefault u x = true) :
    (upsertList rows x).countP (isUserDefault u)
      ≤ rows.countP (isUserDefault u) := by
  unfold upsertList
  by_cases hany : (rows.any fun l => l.id == x.id) = true
  · rw [if_pos hany, List.countP_map]
    apply List.countP_mono_left
    intro m _ hPm
    simp only [Function.comp] at hPm
    by_cases hmid : (m.id == x.id) = true
    · rw [if_pos hmid] at hPm
      exact absurd hPm hPx
    · rwa [if_neg hmid] at hPm
  · rw [if_neg hany, List.countP_append]
    have h1 : ([x].countP (isUserDefault u)) = 0 := by
      simp only [List.countP_singleton]
      exact if_neg hPx
    omega

/-- C1: saving a list preserves "at most one non-deleted default list
per user" (primary-key ids being unique), and a save with
`is_default = true` leaves every other non-deleted list of the same
user non-default. -/
theorem default_list_uniqueness (s : Store) (x : ListRec) (u : UserId)
    (hid : s.lists.countP (fun l => l.id == x.id) ≤ 1)
    (hinv : countDefaults s u ≤ 1) :
    countDefaults (saveList s x) u ≤ 1
    ∧ (x.is_default = true → ∀ l ∈ (saveList s x).lists,
        l.user = x.user → l.id ≠ x.id → l.soft_deleted = false →
        l.is_default = false) := by
  constructor
  · show (upsertList (if x.is_default = true then
        s.lists.map (clearOther x) else s.lists) x).countP
        (isUserDefault u) ≤ 1
    by_cases hx : x.is_default = true
    · rw [if_pos hx]
      by_cases hPx : isUserDefault u x = true
      · -- the saved row itself counts: all surviving defaults share its id
        have hPx' := hPx
        simp only [isUserDefault, Bool.and_eq_true, beq_iff_eq,
          Bool.not_eq_true'] at hPx'
        have hxu : x.user = u := hPx'.1.1
        have hkey : ∀ m ∈ s.lists.map (clearOther x),
            isUserDefault u m = true → (m.id == x.id) = true := by
          intro m hm hPm
          obtain ⟨l0, _, rfl⟩ := List.mem_map.mp hm
          have hcs := clearOther_cases x l0
          have hd : (clearOther x l0).is_default = true := by
            simp only [isUserDefault, Bool.and_eq_true] at hPm
            exact hPm.1.2
          obtain ⟨hfix, _, himp⟩ := hcs.2.2.2 hd
          have hPl : isUserDefault u l0 = true := by rwa [hfix] at hPm
          simp only [isUserDefault, Bool.and_eq_true, beq_iff_eq,
            Bool.not_eq_true'] at hPl
          have hid0 : l0.id = x.id := himp (hPl.1.1.trans hxu.symm) hPl.2
          rw [hcs.1]
          simp [hid0]
        have hrows_key : (s.lists.map (clearOther x)).countP
            (fun l => l.id == x.id) ≤ 1 := by
          rw [List.countP_map]
          calc s.lists.countP ((fun l => l.id == x.id) ∘ clearOther x)
              = s.lists.countP (fun l => l.id == x.id) :=
                List.countP_congr (fun l _ => by
                  simp [Function.comp, (clearOther_cases x l).1])
            _ ≤ 1 := hid
        unfold upsertList
        by_cases hany : ((s.lists.map (clearOther x)).any
            fun l => l.id == x.id) = true
        · rw [if_pos hany]
          calc ((s.lists.map (clearOther x)).map
                (fun l => if l.id == x.id then x else l)).countP
                (isUserDefault u)
              = (s.lists.map (clearOther x)).countP
                ((isUserDefault u) ∘ (fun l => if l.id == x.id then x
                  else l)) := List.countP_map _ _ _
            _ ≤ (s.lists.map (clearOther x)).countP
                (fun l => l.id == x.id) := by
                apply List.countP_mono_left
                intro m hm hPm
                simp only [Function.comp] at hPm
                by_cases hmid : (m.id == x.id) = true
                · exact hmid
                · rw [if_neg hmid] at hPm
                  exact hkey m hm hPm
            _ ≤ 1 := hrows_key
        · rw [if_neg hany, List.countP_append]
          have h0 : (s.lists.map (clearOther x)).countP
              (isUserDefault u) = 0 := by
            rw [List.countP_eq_zero]
            intro m hm hPm
            exact (List.any_eq_false.mp (Bool.eq_false_iff.mpr hany)
              m hm) (hkey m hm hPm)
          rw [h0]
          simp [List.countP_singleton, hPx]
      · -- the saved row does not count for u: the count never grows
        have hmono : (s.lists.map (clearOther x)).countP
            (isUserDefault u) ≤ s.lists.countP (isUserDefault u) := by
          rw [List.countP_map]
          apply List.countP_mono_left
          intro l _ hPl
          simp only [Function.comp] at hPl
          have hd : (clearOther x l).is_default = true := by
            simp only [isUserDefault, Bool.and_eq_true] at hPl
            exact hPl.1.2
          obtain ⟨hfix, _, _⟩ := (clearOther_cases x l).2.2.2 hd
          rwa [hfix] at hPl
        exact le_trans
          (countP_upsert_nondefault (s.lists.map (clearOther x)) x u hPx)
          (le_trans hmono hinv)
    · rw [if_neg hx]
      have hxd : x.is_default = false := Bool.eq_false_iff.mpr hx
      have hPx : ¬ isUserDefault u x = true := by
        simp [isUserDefault, hxd]
      exact le_trans (countP_upsert_nondefault s.lists x u hPx) hinv
  · intro hx l hl hlu hlid hlsd
    have hl' : l ∈ upsertList (if x.is_default = true then
        s.lists.map (clearOther x) else s.lists) x := hl
    rw [if_pos hx] at hl'
    have hclear : ∀ l0 ∈ s.lists, clearOther x l0 = l →
        l.is_default = false := by
      intro l0 _ hml
      subst hml
      by_contra hd
      have hd' : (clearOther x l0).is_default = true := by
        simpa using hd
      obtain ⟨hfix, _, himp⟩ := (clearOther_cases x l0).2.2.2 hd'
      rw [hfix] at hlu hlid hlsd
      exact hlid (himp hlu hlsd)
    unfold upsertList at hl'
    split at hl'
    · obtain ⟨m, hm, hml⟩ := List.mem_map.mp hl'
      by_cases hmid : (m.id == x.id) = true
      · rw [if_pos hmid] at hml
        exact absurd (congrArg ListRec.id hml).symm hlid
      · rw [if_neg hmid] at hml
        obtain ⟨l0, hl0, rfl⟩ := List.mem_map.mp hm
        exact hclear l0 hl0 hml
    · rcases List.mem_append.mp hl' with hm | hm
      · obtain ⟨l0, hl0, hml⟩ := List.mem_map.mp hm
        exact hclear l0 hl0 hml
      · exact absurd (congrArg ListRec.id
          (List.mem_singleton.mp hm)) hlid

/-- C1 witness: promoting the sample "Work" list to default keeps user
1's non-deleted default count at one, and demotes the old inbox. -/
theorem default_list_uniqueness_check :
    countDefaults
      (saveList sampleStore { sampleList with is_default := true }) 1 ≤ 1 :=
  (default_list_uniqueness sampleStore
    { sampleList with is_default := true } 1 (by decide) (by decide)).1

/-- C8: a successful list deletion keeps every row of both tables (soft
delete, never a removal), marks the target list soft-deleted, clears the
list reference of every task that pointed at it while touching nothing
else on those tasks, and leaves previously queryable tasks queryable. -/
theorem delete_list_soft (s s' : Store) (caller : UserId) (lid : ListId)
    (confirm move : Bool)
    (hdel : deleteList s caller lid confirm move = .ok s') :
    s'.lists.length = s.lists.length
    ∧ s'.tasks.length = s.tasks.length
    ∧ (∀ l ∈ s'.lists, l.id = lid → l.soft_deleted = true)
    ∧ (∀ t ∈ s.tasks, t.list = some lid →
        { t with list := none } ∈ s'.tasks)
    ∧ (∀ t ∈ s.tasks, t.list ≠ some lid → t ∈ s'.tasks)
    ∧ (∀ t ∈ s'.tasks, t.list ≠ some lid)
    ∧ (∀ u : UserId, ∀ t ∈ tasksQueryset s u,
        ∃ t' ∈ tasksQueryset s' u, t'.id = t.id
          ∧ t'.soft_deleted = false) := by
  unfold deleteList at hdel
  by_cases hc : (!confirm) = true
  · rw [if_pos hc] at hdel
    exact absurd hdel (by simp)
  · rw [if_neg hc] at hdel
    cases hf : (listsQueryset s caller).find? (fun l => l.id == lid) with
    | none => rw [hf] at hdel; exact absurd hdel (by simp)
    | some l0 =>
      rw [hf] at hdel
      simp only [Except.ok.injEq] at hdel
      subst hdel
      refine ⟨List.length_map _ _, List.length_map _ _, ?_, ?_, ?_, ?_, ?_⟩
      · intro l hl hlid
        obtain ⟨b, _, hbl⟩ := List.mem_map.mp hl
        by_cases hbid : (b.id == lid) = true
        · rw [if_pos hbid] at hbl
          subst hbl
          rfl
        · rw [if_neg hbid] at hbl
          subst hbl
          exact absurd hlid (by simpa using hbid)
      · intro t ht htl
        refine List.mem_map.mpr ⟨t, ht, ?_⟩
        rw [if_pos (by simp [htl])]
      · intro t ht htl
        refine List.mem_map.mpr ⟨t, ht, ?_⟩
        rw [if_neg (by simpa using htl)]
      · intro t ht
        obtain ⟨b, _, hbt⟩ := List.mem_map.mp ht
        by_cases hbl : (b.list == some lid) = true
        · rw [if_pos hbl] at hbt
          subst hbt
          simp
        · rw [if_neg hbl] at hbt
          subst hbt
          simpa using hbl
      · intro u t ht
        have hmem := (List.mem_filter.mp ht).1
        have hpred := (List.mem_filter.mp ht).2
        simp only [Bool.and_eq_true, beq_iff_eq, Bool.not_eq_true'] at hpred
        by_cases hbl : (t.list == some lid) = true
        · refine ⟨{ t with list := none }, ?_, rfl, hpred.2⟩
          refine List.mem_filter.mpr ⟨?_, ?_⟩
          · exact List.mem_map.mpr ⟨t, hmem, by rw [if_pos hbl]⟩
          · simp [hpred.1, hpred.2]
        · refine ⟨t, ?_, rfl, hpred.2⟩
          refine List.mem_filter.mpr ⟨?_, ?_⟩
          · exact List.mem_map.mpr ⟨t, hmem, by rw [if_neg hbl]⟩
          · simp [hpred.1, hpred.2]

/-- C8 witness: deleting list 10 for user 1 soft-deletes it, clears the
sample task's reference, and the task stays queryable. -/
theorem delete_list_soft_check :
    ({ sampleStore with
        lists := [{ sampleList with soft_deleted := true },
          sampleDefaultList, otherUserList]
        tasks := [{ sampleTask with list := none }] } : Store).tasks.length
      = sampleStore.tasks.length
    ∧ ({ sampleTask with list := none } : Task)
        ∈ ({ sampleStore with
            lists := [{ sampleList with soft_deleted := true },
              sampleDefaultList, otherUserList]
            tasks := [{ sampleTask with list := none }] } : Store).tasks :=
  ⟨(delete_list_soft sampleStore _ 1 10 true true rfl).2.1,
   (delete_list_soft sampleStore _ 1 10 true true rfl).2.2.2.1
     sampleTask (by decide) rfl⟩

/-- C9 counterexample: the task API default ordering is `-created_at`
alone — two distinct tasks with equal `created_at` and different ids
compare equal both ways, so ties are not broken by the identifier and
the listing order is not a deterministic total order. -/
theorem ordering_tie_counterexample :
    taskApiOrderLe sampleTask { sampleTask with id := 21 } = true
    ∧ taskApiOrderLe { sampleTask with id := 21 } sampleTask = true
    ∧ sampleTask ≠ ({ sampleTask with id := 21 } : Task)
    ∧ sampleTask.id ≠ ({ sampleTask with id := 21 } : Task).id := by
  refine ⟨by decide, by decide, by decide, by decide⟩

/-- C9 amended: the default orderings are `(sort_order asc, name asc)`
for lists and `created_at desc` for the task API (`(sort_order,
created_at)` asc at rest); each is total, but ties are resolved only up
to the ordering key — never by the entity identifier — so the order is
deterministic only between entities whose keys differ. -/
theorem default_orderings (a b : ListRec) (t v : Task) :
    (listOrderLe a b = true ∨ listOrderLe b a = true)
    ∧ (listOrderLe a b = true → listOrderLe b a = true →
        a.sort_order = b.sort_order ∧ a.name = b.name)
    ∧ (taskApiOrderLe t v = true ∨ taskApiOrderLe v t = true)
    ∧ (taskApiOrderLe t v = true → taskApiOrderLe v t = true →
        t.created_at = v.created_at)
    ∧ (taskModelOrderLe t v = true ∨ taskModelOrderLe v t = true)
    ∧ (taskModelOrderLe t v = true → taskModelOrderLe v t = true →
        t.sort_order = v.sort_order ∧ t.created_at = v.created_at) := by
  refine ⟨?_, ?_, ?_, ?_, ?_, ?_⟩
  · simp only [listOrderLe, Bool.or_eq_true, Bool.and_eq_true,
      decide_eq_true_eq, beq_iff_eq]
    rcases lt_trichotomy a.sort_order b.sort_order with h | h | h
    · exact Or.inl (Or.inl h)
    · rcases le_total a.name b.name with hn | hn
      · exact Or.inl (Or.inr ⟨h, hn⟩)
      · exact Or.inr (Or.inr ⟨h.symm, hn⟩)
    · exact Or.inr (Or.inl h)
  · simp only [listOrderLe, Bool.or_eq_true, Bool.and_eq_true,
      decide_eq_true_eq, beq_iff_eq]
    rintro (h1 | ⟨he1, hn1⟩) (h2 | ⟨he2, hn2⟩)
    · exact absurd h2 (lt_asymm h1)
    · exact absurd h1 (by rw [he2]; exact lt_irrefl _)
    · exact absurd h2 (by rw [he1]; exact lt_irrefl _)
    · exact ⟨he1, le_antisymm hn1 hn2⟩
  · simp only [taskApiOrderLe, decide_eq_true_eq]
    exact (le_total v.created_at t.created_at).imp id id
  · simp only [taskApiOrderLe, decide_eq_true_eq]
    intro h1 h2
    exact le_antisymm h2 h1
  · simp only [taskModelOrderLe, Bool.or_eq_true, Bool.and_eq_true,
      decide_eq_true_eq, beq_iff_eq]
    rcases lt_trichotomy t.sort_order v.sort_order with h | h | h
    · exact Or.inl (Or.inl h)
    · rcases le_total t.created_at v.created_at with hn | hn
      · exact Or.inl (Or.inr ⟨h, hn⟩)
      · exact Or.inr (Or.inr ⟨h.symm, hn⟩)
    · exact Or.inr (Or.inl h)
  · simp only [taskModelOrderLe, Bool.or_eq_true, Bool.and_eq_true,
      decide_eq_true_eq, beq_iff_eq]
    rintro (h1 | ⟨he1, hn1⟩) (h2 | ⟨he2, hn2⟩)
    · exact absurd h2 (lt_asymm h1)
    · exact absurd h1 (by rw [he2]; exact lt_irrefl _)
    · exact absurd h2 (by rw [he1]; exact lt_irrefl _)
    · exact ⟨he1, le_antisymm hn1 hn2⟩

/-- C9 amended witness: two tasks that the API ordering ranks equally in
both directions indeed share their `created_at` key. -/
theorem default_orderings_check :
    sampleTask.created_at = ({ sampleTask with id := 21 } : Task).created_at :=
  (default_orderings sampleList sampleDefaultList sampleTask
    { sampleTask with id := 21 }).2.2.2.1 (by decide) (by decide)

end DailyFlo
